import Mathlib

/-!
Verification of the matching and scoring engine of the jobmatch-pro
repository (src/app.py), as a shallow embedding in Lean 4.

Strings are modelled as Lean `String`s (lists of characters); Python's
regular-expression character classes `\w` and `\s` are modelled by the
predicates `pyWordChar` and `pyIsSpace` below (the ASCII core of Python's
Unicode-aware classes — every input exercised by the claims is ASCII).
Python `float` arithmetic is modelled exactly over `ℝ` (with the
rational skill fraction kept in `ℚ`), and Python's `round(x, 2)`
(round-half-to-even on the scaled value) is modelled by `pyRound` /
`round2`.  Fallible code is modelled with `Except`.
-/

/-- Model of Python's `\w` character class (regex word character), ASCII core:
alphanumeric or underscore. -/
def pyWordChar (c : Char) : Bool :=
  c.isAlphanum || c = '_'

/-- Model of Python's `\s` character class and of `str.strip()`'s notion of
whitespace, ASCII core: space, tab, newline, carriage return, vertical tab,
form feed. -/
def pyIsSpace (c : Char) : Bool :=
  c = ' ' || c = '\t' || c = '\n' || c = '\r' || c = '\x0b' || c = '\x0c'

/-- Characters kept by `normalize_skill`'s first substitution
`re.sub(r'[^\w\s-]', '', ...)`: word characters, whitespace, hyphen. -/
def keepSkillChar (c : Char) : Bool :=
  pyWordChar c || pyIsSpace c || c = '-'

/-- Model of `re.sub(r'\s+', ' ', ...)`: every maximal run of whitespace
characters is replaced by a single space.  Each whitespace character that is
followed by further whitespace is dropped; the last character of a run
becomes `' '`. -/
def collapseWs : List Char → List Char
  | [] => []
  | c :: cs =>
    if pyIsSpace c then
      match cs with
      | [] => [' ']
      | d :: ds => if pyIsSpace d then collapseWs (d :: ds) else ' ' :: collapseWs (d :: ds)
    else c :: collapseWs cs

/-- Model of Python's `str.strip()`: remove leading and trailing whitespace. -/
def pyStrip (l : List Char) : List Char :=
  ((l.dropWhile pyIsSpace).reverse.dropWhile pyIsSpace).reverse

/-- Model of `normalize_skill` (src/app.py lines 116-121): lowercase, strip
every character that is not a word character, whitespace or hyphen, collapse
whitespace runs to single spaces, and trim the ends.  The Python function is
total on strings (its `except` branch is unreachable for `str` input). -/
def normalize_skill (s : String) : String :=
  ⟨pyStrip (collapseWs ((s.data.map Char.toLower).filter keepSkillChar))⟩

/-- One character of `re.sub(r'[^\w\s]', ' ', ...)`: a character that is
neither a word character nor whitespace is replaced by a space. -/
def cleanChar (c : Char) : Char :=
  if pyWordChar c || pyIsSpace c then c else ' '

/-- Model of the text cleaning in `calculate_match` (src/app.py lines
130-131): `re.sub(r'[^\w\s]', ' ', text.lower())`. -/
def cleanText (s : String) : String :=
  ⟨(s.data.map Char.toLower).map cleanChar⟩

/-- Model of Python's `str.split(',')`: split on every comma, keeping empty
pieces (`"".split(',') == ['']`). -/
def splitComma : List Char → List (List Char)
  | [] => [[]]
  | c :: cs =>
    if c = ',' then [] :: splitComma cs
    else
      match splitComma cs with
      | [] => [[c]]
      | t :: ts => (c :: t) :: ts

/-- Model of the skill-list parse in `calculate_match` (src/app.py line 133):
`[normalize_skill(skill.strip()) for skill in required_skills.split(',') if skill.strip()]`.
A piece that strips to the empty string (Python falsy) is discarded; the
remaining pieces are stripped and normalized. -/
def skillsList (rs : String) : List String :=
  (splitComma rs.data).filterMap fun t =>
    if pyStrip t = [] then none else some (normalize_skill ⟨pyStrip t⟩)

/-- Whether the character at index `i` of `t` is a word character (out of
range counts as not a word character), as used by the regex `\b`. -/
def isWordAt (t : List Char) (i : Nat) : Bool :=
  match t.get? i with
  | some c => pyWordChar c
  | none => false

/-- Whether position `i` (between indices `i-1` and `i`) of `t` is a regex
word boundary `\b`: the word-character status changes there; the positions
before index 0 and after the last index count as non-word. -/
def boundaryAt (t : List Char) (i : Nat) : Bool :=
  if i = 0 then isWordAt t 0
  else isWordAt t (i - 1) != isWordAt t i

/-- Model of `re.search(rf'\b{re.escape(skill)}\b', text)` (src/app.py line
150): the escaped pattern is the literal `pat`, so the search succeeds iff
`pat` occurs in `t` starting at some position that is a word boundary and
ending at a word boundary. -/
def wordSearch (pat : List Char) (t : List Char) : Bool :=
  (List.range (t.length + 1)).any fun i =>
    boundaryAt t i && ((t.drop i).take pat.length == pat) && boundaryAt t (i + pat.length)

/-- Model of the `found_skills` accumulation in `calculate_match` (src/app.py
lines 147-151): if the skill list and the cleaned CV text are both non-empty
(Python truthiness), keep each skill whose word-boundary pattern occurs in
the cleaned text, in list order; otherwise the list stays empty. -/
def foundList (cv rs : String) : List String :=
  if (skillsList rs).isEmpty || (cleanText cv).data.isEmpty then []
  else (skillsList rs).filter fun sk => wordSearch sk.data (cleanText cv).data

/-- Model of the skills-match fraction (src/app.py line 153):
`len(found_skills) / len(skills_list) if skills_list else 0`. -/
def skillsFrac (cv rs : String) : ℚ :=
  if (skillsList rs).isEmpty then 0
  else ((foundList cv rs).length : ℚ) / ((skillsList rs).length : ℚ)

/-- Model of `set(skills_list) - set(found_skills)` (src/app.py line 161). -/
def missingFinset (cv rs : String) : Finset String :=
  (skillsList rs).toFinset \ (foundList cv rs).toFinset

/-- The missing skills as a duplicate-free list (Python iterates the set
`set(skills_list) - set(found_skills)` in unspecified hash order; we model a
canonical order, and no claim depends on the order of this field). -/
def missingList (cv rs : String) : List String :=
  ((skillsList rs).filter fun s => decide (s ∉ foundList cv rs)).dedup

/-- Model of `', '.join(...)`. -/
def joinComma : List String → String
  | [] => ""
  | [s] => s
  | s :: rest => s ++ ", " ++ joinComma rest

/-- Modelled from the spec: the frozen English stop-word list used by
scikit-learn's `TfidfVectorizer(stop_words='english')` (src/app.py line 139);
the library internals are not part of this repository.  The exact contents
never influence the claims proved below. -/
def englishStopWords : List String :=
  ["a", "about", "above", "across", "after", "afterwards", "again", "against",
   "all", "almost", "alone", "along", "already", "also", "although", "always",
   "am", "among", "amongst", "amoungst", "amount", "an", "and", "another",
   "any", "anyhow", "anyone", "anything", "anyway", "anywhere", "are",
   "around", "as", "at", "back", "be", "became", "because", "become",
   "becomes", "becoming", "been", "before", "beforehand", "behind", "being",
   "below", "beside", "besides", "between", "beyond", "bill", "both",
   "bottom", "but", "by", "call", "can", "cannot", "cant", "co", "con",
   "could", "couldnt", "cry", "de", "describe", "detail", "do", "done",
   "down", "due", "during", "each", "eg", "eight", "either", "eleven",
   "else", "elsewhere", "empty", "enough", "etc", "even", "ever", "every",
   "everyone", "everything", "everywhere", "except", "few", "fifteen",
   "fifty", "fill", "find", "fire", "first", "five", "for", "former",
   "formerly", "forty", "found", "four", "from", "front", "full", "further",
   "get", "give", "go", "had", "has", "hasnt", "have", "he", "hence", "her",
   "here", "hereafter", "hereby", "herein", "hereupon", "hers", "herself",
   "him", "himself", "his", "how", "however", "hundred", "i", "ie", "if",
   "in", "inc", "indeed", "interest", "into", "is", "it", "its", "itself",
   "keep", "last", "latter", "latterly", "least", "less", "ltd", "made",
   "many", "may", "me", "meanwhile", "might", "mill", "mine", "more",
   "moreover", "most", "mostly", "move", "much", "must", "my", "myself",
   "name", "namely", "neither", "never", "nevertheless", "next", "nine",
   "no", "nobody", "none", "noone", "nor", "not", "nothing", "now",
   "nowhere", "of", "off", "often", "on", "once", "one", "only", "onto",
   "or", "other", "others", "otherwise", "our", "ours", "ourselves", "out",
   "over", "own", "part", "per", "perhaps", "please", "put", "rather", "re",
   "same", "see", "seem", "seemed", "seeming", "seems", "serious", "several",
   "she", "should", "show", "side", "since", "sincere", "six", "sixty",
   "so", "some", "somehow", "someone", "something", "sometime", "sometimes",
   "somewhere", "still", "such", "system", "take", "ten", "than", "that",
   "the", "their", "them", "themselves", "then", "thence", "there",
   "thereafter", "thereby", "therefore", "therein", "thereupon", "these",
   "they", "thick", "thin", "third", "this", "those", "though", "three",
   "through", "throughout", "thru", "thus", "to", "together", "too", "top",
   "toward", "towards", "twelve", "twenty", "two", "un", "under", "until",
   "up", "upon", "us", "very", "via", "was", "we", "well", "were", "what",
   "whatever", "when", "whence", "whenever", "where", "whereafter",
   "whereas", "whereby", "wherein", "whereupon", "wherever", "whether",
   "which", "while", "whither", "who", "whoever", "whole", "whom", "whose",
   "why", "will", "with", "within", "without", "would", "yet", "you",
   "your", "yours", "yourself", "yourselves"]

/-- Accumulate maximal runs of word characters (`acc` holds the current run,
reversed). -/
def wordRunsAux (acc : List Char) : List Char → List (List Char)
  | [] => if acc.isEmpty then [] else [acc.reverse]
  | c :: cs =>
    if pyWordChar c then wordRunsAux (c :: acc) cs
    else if acc.isEmpty then wordRunsAux [] cs
    else acc.reverse :: wordRunsAux [] cs

/-- Modelled from the spec: scikit-learn's default tokenization
`r"(?u)\b\w\w+\b"` (runs of at least two word characters) followed by
English stop-word removal, applied to the already-lowercased cleaned texts. -/
def sklearnTokens (s : String) : List String :=
  (((wordRunsAux [] s.data).filter fun r => 2 ≤ r.length).map
    fun r => (⟨r⟩ : String)).filter fun w => decide (w ∉ englishStopWords)

/-- Modelled from the spec: the vectorizer's vocabulary over the
two-document corpus — every distinct token of either document (`min_df=1`). -/
def tfVocab (a b : String) : Finset String :=
  (sklearnTokens a ++ sklearnTokens b).toFinset

/-- Raw term count of token `t` in document `d` (scikit-learn's term
frequency). -/
def termCount (d t : String) : Nat :=
  (sklearnTokens d).count t

/-- Document frequency of `t` over the two-document corpus. -/
def docFreq (a b t : String) : Nat :=
  (if 0 < termCount a t then 1 else 0) + (if 0 < termCount b t then 1 else 0)

/-- Modelled from the spec: scikit-learn's smoothed inverse document
frequency over the two-document corpus, `ln((1+n)/(1+df)) + 1` with `n = 2`. -/
noncomputable def idf (a b t : String) : ℝ :=
  Real.log (3 / (1 + (docFreq a b t : ℝ))) + 1

/-- Modelled from the spec: the TF-IDF weight of token `t` for document `d`
of the corpus `{a, b}`.  (The vectorizer's subsequent L2 row normalization
cancels in the cosine and is omitted.) -/
noncomputable def tfidfWeight (a b d t : String) : ℝ :=
  (termCount d t : ℝ) * idf a b t

/-- Modelled from the spec: `cosine_similarity` of the two TF-IDF rows
(src/app.py lines 139-141).  An empty vocabulary makes `fit_transform` raise,
which `calculate_match` catches, leaving the score 0; a zero row yields
similarity 0 (division by zero is 0 here, matching the library's handling of
zero-norm rows). -/
noncomputable def tfidfCosine (a b : String) : ℝ :=
  if tfVocab a b = ∅ then 0
  else (∑ t ∈ tfVocab a b, tfidfWeight a b a t * tfidfWeight a b b t) /
    (Real.sqrt (∑ t ∈ tfVocab a b, tfidfWeight a b a t ^ 2) *
      Real.sqrt (∑ t ∈ tfVocab a b, tfidfWeight a b b t ^ 2))

/-- Model of the JD-match value before scaling (src/app.py lines 136-144):
0 unless both cleaned texts are non-blank, otherwise the TF-IDF cosine of
the corpus `[jd_clean, cv_clean]`. -/
noncomputable def jdMatchVal (cv jd : String) : ℝ :=
  if pyStrip (cleanText jd).data ≠ [] ∧ pyStrip (cleanText cv).data ≠ [] then
    tfidfCosine (cleanText jd) (cleanText cv)
  else 0

/-- Model of Python's built-in `round` to an integer: round half to even. -/
noncomputable def pyRound (x : ℝ) : ℤ :=
  if Int.fract x < 1 / 2 then ⌊x⌋
  else if 1 / 2 < Int.fract x then ⌊x⌋ + 1
  else if Even ⌊x⌋ then ⌊x⌋ else ⌊x⌋ + 1

/-- Model of Python's `round(x, 2)` on the exact value. -/
noncomputable def round2 (x : ℝ) : ℝ :=
  (pyRound (x * 100) : ℝ) / 100

/-- The result dictionary of `calculate_match` (src/app.py lines 157-163). -/
structure MatchResult where
  total_score : ℝ
  jd_match : ℝ
  skills_match : ℝ
  missing_skills : String
  found_skills : String

/-- Model of `calculate_match` (src/app.py lines 123-172).  The `except`
fallback branch is unreachable for string inputs (every step is total), and
`if not cv_text` / `if not job_description` only replace the empty string by
itself, so they are omitted. -/
noncomputable def calculate_match (cv_text job_description required_skills : String) :
    MatchResult :=
  let jdm : ℝ := jdMatchVal cv_text job_description
  let smf : ℝ := (skillsFrac cv_text required_skills : ℝ)
  { total_score := round2 ((smf * 0.6 + jdm * 0.4) * 100)
    jd_match := round2 (jdm * 100)
    skills_match := round2 (smf * 100)
    missing_skills := joinComma (missingList cv_text required_skills)
    found_skills := joinComma (foundList cv_text required_skills) }

/-- Insert `x` into a list sorted in non-increasing key order, after every
element with a strictly larger key and before the first element whose key is
not larger (so before earlier-tied elements never, and before later elements
with an equal key always — the stable descending order of Python's
`list.sort(key=..., reverse=True)`). -/
def insertDesc {α β : Type} [LinearOrder β] (key : α → β) (x : α) : List α → List α
  | [] => [x]
  | y :: ys => if key x < key y then y :: insertDesc key x ys else x :: y :: ys

/-- Model of `candidates.sort(key=lambda x: x['analysis']['total_score'],
reverse=True)` (src/app.py line 321) and of the job-post sort (line 366):
a stable sort into non-increasing key order. -/
def pySortDesc {α β : Type} [LinearOrder β] (key : α → β) : List α → List α
  | [] => []
  | x :: xs => insertDesc key x (pySortDesc key xs)

/-- Model of `best_candidate=candidates[0] if candidates else None`
(src/app.py line 325): the first element of the ranked batch. -/
def bestCandidate {α β : Type} [LinearOrder β] (key : α → β) (l : List α) : Option α :=
  (pySortDesc key l).head?

/-- The error taxonomy of `extract_text_from_file` (src/app.py lines 96-114).
Every branch is re-wrapped by the outer handler into
`Exception("File processing error: " + ...)`; the constructors record which
branch raised, and `ExtractError.message` reproduces the wrapped message. -/
inductive ExtractError where
  | unsupportedFormat (detected : String)
  | extractionFailed (cause : String)
  | indexError
deriving DecidableEq

/-- The wrapped message raised by `extract_text_from_file` for each error. -/
def ExtractError.message : ExtractError → String
  | .unsupportedFormat d => "File processing error: Unsupported file type: " ++ d
  | .extractionFailed c => "File processing error: " ++ c
  | .indexError => "File processing error: list index out of range"

/-- One uploaded file, as the extraction layer sees it: its name, the MIME
type sniffed from its bytes by `magic`, and the outcome each underlying
parser would produce on it (the byte payload itself is opaque to the
dispatch logic). -/
structure FileInput where
  filename : String
  sniffedType : String
  pdfResult : Except String String
  docxResult : Except String String

/-- Model of `extract_text_from_pdf` (src/app.py lines 83-87): wrap any
parser failure. -/
def extract_text_from_pdf (r : Except String String) : Except String String :=
  match r with
  | .ok t => .ok t
  | .error e => .error ("Failed to extract PDF text: " ++ e)

/-- Model of `extract_text_from_docx` (src/app.py lines 89-94): wrap any
parser failure. -/
def extract_text_from_docx (r : Except String String) : Except String String :=
  match r with
  | .ok t => .ok t
  | .error e => .error ("Failed to extract DOCX text: " ++ e)

/-- Model of `file_path.rsplit('.', 1)[1]`: the segment after the last dot,
or `none` (Python: `IndexError`) when the name has no dot. -/
def rsplitExt (name : String) : Option String :=
  if '.' ∈ name.data then some ⟨(name.data.reverse.takeWhile fun c => c ≠ '.').reverse⟩
  else none

/-- Model of `extract_text_from_file` (src/app.py lines 96-114): dispatch on
the sniffed MIME type, fall back to the lowercased filename extension, and
otherwise raise `ValueError(f"Unsupported file type: {file_type}")`; the
outer handler wraps every failure (modelled by `ExtractError`). -/
def extract_text_from_file (f : FileInput) : Except ExtractError String :=
  if f.sniffedType = "application/pdf" then
    (extract_text_from_pdf f.pdfResult).mapError .extractionFailed
  else if f.sniffedType =
      "application/vnd.openxmlformats-officedocument.wordprocessingml.document" then
    (extract_text_from_docx f.docxResult).mapError .extractionFailed
  else
    match rsplitExt f.filename with
    | none => .error .indexError
    | some e =>
      let el : String := ⟨e.data.map Char.toLower⟩
      if el = "pdf" then (extract_text_from_pdf f.pdfResult).mapError .extractionFailed
      else if el = "docx" then (extract_text_from_docx f.docxResult).mapError .extractionFailed
      else .error (.unsupportedFormat f.sniffedType)

/-- Model of `allowed_file` (src/app.py lines 79-81) with
`ALLOWED_EXTENSIONS = {'pdf', 'docx'}` from src/config.py. -/
def allowed_file (filename : String) : Bool :=
  '.' ∈ filename.data &&
    match rsplitExt filename with
    | some e => (⟨e.data.map Char.toLower⟩ : String) = "pdf" ||
        (⟨e.data.map Char.toLower⟩ : String) = "docx"
    | none => false

/-- Model of `cv_text[:200] + ("..." if len(cv_text) > 200 else "")`
(src/app.py line 308). -/
def cvPreview (t : String) : String :=
  if 200 < t.data.length then (⟨t.data.take 200⟩ : String) ++ "..."
  else ⟨t.data.take 200⟩

/-- One row of the results table built by `analyze_cvs`. -/
structure Candidate where
  filename : String
  analysis : MatchResult
  cv_preview : String

/-- Model of the per-file loop of `analyze_cvs` (src/app.py lines 296-318):
a file with an empty name or a disallowed extension is skipped silently;
otherwise it is extracted and scored, a failure being caught per file and
flashed as `f"Error processing {file.filename}: {str(e)}"` while the loop
continues.  Returns the accumulated candidates and flashed error messages,
each in encounter order.  (Saving to and removing the scratch upload path is
I/O and is not modelled.) -/
noncomputable def processFiles (jd rs : String) : List FileInput → List Candidate × List String
  | [] => ([], [])
  | f :: rest =>
    let acc := processFiles jd rs rest
    if f.filename ≠ "" ∧ allowed_file f.filename then
      match extract_text_from_file f with
      | .ok text =>
          ({ filename := f.filename
             analysis := calculate_match text jd rs
             cv_preview := cvPreview text } :: acc.1, acc.2)
      | .error e => (acc.1, ("Error processing " ++ f.filename ++ ": " ++ e.message) :: acc.2)
    else acc

/-- Model of the ranking step of `analyze_cvs` (src/app.py lines 320-321):
the successfully processed candidates sorted by descending total score. -/
noncomputable def analyzeRanked (jd rs : String) (files : List FileInput) : List Candidate :=
  pySortDesc (fun c => c.analysis.total_score) (processFiles jd rs files).1

example : normalize_skill "  PyThon  " = "python" := by decide
example : normalize_skill "C++" = "c" := by decide
example : normalize_skill "scikit-learn" = "scikit-learn" := by decide
example : normalize_skill "!!!" = "" := by decide
example : skillsList "Python, SQL, Docker" = ["python", "sql", "docker"] := by decide
example : skillsList "!!!" = [""] := by decide
example : skillsList " , " = [] := by decide
example : cleanText "a-b.c" = "a b c" := by decide
example : wordSearch "sql".data "writes sql daily".data = true := by decide
example : wordSearch "sql".data "mysql daily".data = false := by decide
example : wordSearch "".data "python".data = true := by decide
example : wordSearch "".data "   ".data = false := by decide
example : foundList "experienced python developer, writes sql queries daily"
    "Python, SQL, Docker" = ["python", "sql"] := by decide

theorem pyRound_eq_floor_or_succ (x : ℝ) : pyRound x = ⌊x⌋ ∨ pyRound x = ⌊x⌋ + 1 := by
  unfold pyRound
  split
  · exact Or.inl rfl
  · split
    · exact Or.inr rfl
    · split
      · exact Or.inl rfl
      · exact Or.inr rfl

theorem pyRound_intCast (n : ℤ) : pyRound (n : ℝ) = n := by
  unfold pyRound
  rw [if_pos]
  · exact Int.floor_intCast n
  · rw [Int.fract_intCast]
    norm_num

theorem pyRound_nonneg {x : ℝ} (h : 0 ≤ x) : 0 ≤ pyRound x := by
  have hf : 0 ≤ ⌊x⌋ := Int.floor_nonneg.2 h
  rcases pyRound_eq_floor_or_succ x with h1 | h1 <;> omega

theorem pyRound_le {x : ℝ} {n : ℤ} (h : x ≤ (n : ℝ)) : pyRound x ≤ n := by
  have hfl : ⌊x⌋ ≤ n := by
    have := Int.floor_le_floor h
    rwa [Int.floor_intCast] at this
  unfold pyRound
  split
  · exact hfl
  · rename_i h1
    push_neg at h1
    have hx : x ≠ (n : ℝ) := by
      intro he
      rw [he, Int.fract_intCast] at h1
      norm_num at h1
    have hlt : ⌊x⌋ < n := Int.floor_lt.2 (lt_of_le_of_ne h hx)
    split
    · omega
    · split
      · exact hfl
      · omega

theorem round2_bounds {x : ℝ} (h0 : 0 ≤ x) (h1 : x ≤ 100) :
    0 ≤ round2 x ∧ round2 x ≤ 100 := by
  unfold round2
  constructor
  · have : (0 : ℤ) ≤ pyRound (x * 100) := pyRound_nonneg (by nlinarith)
    positivity
  · have hle : pyRound (x * 100) ≤ (10000 : ℤ) := by
      apply pyRound_le
      push_cast
      nlinarith
    have : (pyRound (x * 100) : ℝ) ≤ 10000 := by exact_mod_cast hle
    linarith

theorem round2_zero : round2 0 = 0 := by
  unfold round2
  rw [show ((0 : ℝ) * 100) = ((0 : ℤ) : ℝ) by norm_num, pyRound_intCast]
  norm_num

theorem round2_hundred : round2 100 = 100 := by
  unfold round2
  rw [show ((100 : ℝ) * 100) = ((10000 : ℤ) : ℝ) by norm_num, pyRound_intCast]
  norm_num

theorem docFreq_le_two (a b t : String) : docFreq a b t ≤ 2 := by
  unfold docFreq
  split <;> split <;> omega

theorem idf_nonneg (a b t : String) : 0 ≤ idf a b t := by
  unfold idf
  have hd : (docFreq a b t : ℝ) ≤ 2 := by exact_mod_cast docFreq_le_two a b t
  have hpos : (0 : ℝ) < 1 + (docFreq a b t : ℝ) := by positivity
  have hlog : 0 ≤ Real.log (3 / (1 + (docFreq a b t : ℝ))) := by
    apply Real.log_nonneg
    rw [le_div_iff₀ hpos]
    linarith
  linarith

theorem tfidfWeight_nonneg (a b d t : String) : 0 ≤ tfidfWeight a b d t := by
  unfold tfidfWeight
  have := idf_nonneg a b t
  positivity

theorem tfidfCosine_nonneg (a b : String) : 0 ≤ tfidfCosine a b := by
  unfold tfidfCosine
  split
  · exact le_refl 0
  · apply div_nonneg
    · exact Finset.sum_nonneg fun t _ =>
        mul_nonneg (tfidfWeight_nonneg a b a t) (tfidfWeight_nonneg a b b t)
    · exact mul_nonneg (Real.sqrt_nonneg _) (Real.sqrt_nonneg _)

theorem tfidfCosine_le_one (a b : String) : tfidfCosine a b ≤ 1 := by
  unfold tfidfCosine
  split
  · norm_num
  · set s := tfVocab a b
    set u : String → ℝ := tfidfWeight a b a
    set v : String → ℝ := tfidfWeight a b b
    set S : ℝ := ∑ t ∈ s, u t * v t with hS
    set A : ℝ := ∑ t ∈ s, u t ^ 2 with hA
    set B : ℝ := ∑ t ∈ s, v t ^ 2 with hB
    have hSnn : 0 ≤ S := Finset.sum_nonneg fun t _ =>
      mul_nonneg (tfidfWeight_nonneg a b a t) (tfidfWeight_nonneg a b b t)
    have hAnn : 0 ≤ A := Finset.sum_nonneg fun t _ => sq_nonneg _
    have hBnn : 0 ≤ B := Finset.sum_nonneg fun t _ => sq_nonneg _
    have hCS : S ^ 2 ≤ A * B := Finset.sum_mul_sq_le_sq_mul_sq s u v
    have hDnn : 0 ≤ Real.sqrt A * Real.sqrt B :=
      mul_nonneg (Real.sqrt_nonneg _) (Real.sqrt_nonneg _)
    rcases eq_or_lt_of_le hDnn with hD0 | hDpos
    · rw [← hD0, div_zero]
      norm_num
    · rw [div_le_one hDpos]
      have hsq : (Real.sqrt A * Real.sqrt B) ^ 2 = A * B := by
        rw [mul_pow, Real.sq_sqrt hAnn, Real.sq_sqrt hBnn]
      have : S ^ 2 ≤ (Real.sqrt A * Real.sqrt B) ^ 2 := by rw [hsq]; exact hCS
      calc S = Real.sqrt (S ^ 2) := (Real.sqrt_sq hSnn).symm
        _ ≤ Real.sqrt ((Real.sqrt A * Real.sqrt B) ^ 2) := Real.sqrt_le_sqrt this
        _ = Real.sqrt A * Real.sqrt B := Real.sqrt_sq hDnn

theorem jdMatchVal_nonneg (cv jd : String) : 0 ≤ jdMatchVal cv jd := by
  unfold jdMatchVal
  split
  · exact tfidfCosine_nonneg _ _
  · exact le_refl 0

theorem jdMatchVal_le_one (cv jd : String) : jdMatchVal cv jd ≤ 1 := by
  unfold jdMatchVal
  split
  · exact tfidfCosine_le_one _ _
  · norm_num

theorem foundList_length_le (cv rs : String) :
    (foundList cv rs).length ≤ (skillsList rs).length := by
  unfold foundList
  split
  · simp
  · exact List.length_filter_le _ _

theorem skillsFrac_nonneg (cv rs : String) : 0 ≤ skillsFrac cv rs := by
  unfold skillsFrac
  split
  · exact le_refl 0
  · positivity

theorem skillsFrac_le_one (cv rs : String) : skillsFrac cv rs ≤ 1 := by
  unfold skillsFrac
  split
  · norm_num
  · rename_i h
    have hlen : 0 < (skillsList rs).length := by
      cases hsk : skillsList rs with
      | nil => rw [hsk] at h; simp at h
      | cons x xs => simp [hsk]
    rw [div_le_one (by exact_mod_cast hlen)]
    exact_mod_cast foundList_length_le cv rs

/-- The claim C1: the total score is the 2-decimal rounding of the weighted
sum of the skill fraction (weight 60) and the semantic fraction (weight 40),
and those same two fractions — each in the unit interval — scaled by 100 and
rounded to 2 decimals are exactly the reported skills and JD sub-scores. -/
theorem c1_total_is_weighted_sum (cv jd rs : String) :
    (calculate_match cv jd rs).total_score
        = round2 ((skillsFrac cv rs : ℝ) * 60 + jdMatchVal cv jd * 40)
      ∧ (calculate_match cv jd rs).skills_match = round2 ((skillsFrac cv rs : ℝ) * 100)
      ∧ (calculate_match cv jd rs).jd_match = round2 (jdMatchVal cv jd * 100)
      ∧ 0 ≤ (skillsFrac cv rs : ℝ) ∧ (skillsFrac cv rs : ℝ) ≤ 1
      ∧ 0 ≤ jdMatchVal cv jd ∧ jdMatchVal cv jd ≤ 1 := by
  refine ⟨?_, rfl, rfl, ?_, ?_, jdMatchVal_nonneg cv jd, jdMatchVal_le_one cv jd⟩
  · show round2 (((skillsFrac cv rs : ℝ) * 0.6 + jdMatchVal cv jd * 0.4) * 100) = _
    congr 1
    ring
  · exact_mod_cast skillsFrac_nonneg cv rs
  · exact_mod_cast skillsFrac_le_one cv rs

/-- The claim C3: every reported score of `calculate_match` lies in
`[0, 100]`. -/
theorem c3_scores_bounded (cv jd rs : String) :
    0 ≤ (calculate_match cv jd rs).total_score
      ∧ (calculate_match cv jd rs).total_score ≤ 100
      ∧ 0 ≤ (calculate_match cv jd rs).jd_match
      ∧ (calculate_match cv jd rs).jd_match ≤ 100
      ∧ 0 ≤ (calculate_match cv jd rs).skills_match
      ∧ (calculate_match cv jd rs).skills_match ≤ 100 := by
  have hs0 : (0 : ℝ) ≤ (skillsFrac cv rs : ℝ) := by exact_mod_cast skillsFrac_nonneg cv rs
  have hs1 : ((skillsFrac cv rs : ℝ)) ≤ 1 := by exact_mod_cast skillsFrac_le_one cv rs
  have hj0 := jdMatchVal_nonneg cv jd
  have hj1 := jdMatchVal_le_one cv jd
  have ht := round2_bounds
    (x := ((skillsFrac cv rs : ℝ) * 0.6 + jdMatchVal cv jd * 0.4) * 100)
    (by nlinarith) (by nlinarith)
  have hjm := round2_bounds (x := jdMatchVal cv jd * 100) (by nlinarith) (by nlinarith)
  have hsm := round2_bounds (x := (skillsFrac cv rs : ℝ) * 100) (by nlinarith) (by nlinarith)
  exact ⟨ht.1, ht.2, hjm.1, hjm.2, hsm.1, hsm.2⟩

/-- The claim C8: if the cleaned candidate text or the cleaned job
description is empty or whitespace-only, the reported JD match is 0. -/
theorem c8_empty_text_zero_jd (cv jd rs : String)
    (h : pyStrip (cleanText cv).data = [] ∨ pyStrip (cleanText jd).data = []) :
    (calculate_match cv jd rs).jd_match = 0 := by
  have hval : jdMatchVal cv jd = 0 := by
    unfold jdMatchVal
    rw [if_neg]
    intro hc
    rcases h with h | h
    · exact hc.2 h
    · exact hc.1 h
  show round2 (jdMatchVal cv jd * 100) = 0
  rw [hval, zero_mul, round2_zero]

/-- Witness for C8 at the concrete input `cv = ". ."`, `jd = "hiring"`: the
cleaned candidate text is whitespace-only, and the JD match is 0. -/
theorem c8_empty_text_zero_jd_witness :
    (pyStrip (cleanText ". .").data = [] ∨ pyStrip (cleanText "hiring").data = [])
      ∧ (calculate_match ". ." "hiring" "python").jd_match = 0 :=
  ⟨Or.inl (by decide), c8_empty_text_zero_jd ". ." "hiring" "python" (Or.inl (by decide))⟩

theorem filterMap_if_eq_filter_map (l : List (List Char)) :
    (l.filterMap fun t =>
        if pyStrip t = [] then none else some (normalize_skill ⟨pyStrip t⟩))
      = ((l.filter fun t => pyStrip t ≠ []).map fun t => normalize_skill ⟨pyStrip t⟩) := by
  induction l with
  | nil => rfl
  | cons t ts ih =>
    by_cases h : pyStrip t = [] <;>
      simp [List.filterMap_cons, List.filter_cons, h, ih]

theorem skillsList_eq_filter_map (rs : String) :
    skillsList rs
      = (((splitComma rs.data).filter fun t => pyStrip t ≠ []).map
          fun t => normalize_skill ⟨pyStrip t⟩) :=
  filterMap_if_eq_filter_map _

theorem foundList_subset (cv rs : String) : foundList cv rs ⊆ skillsList rs := by
  unfold foundList
  split
  · intro s hs
    simp at hs
  · exact List.filter_subset' _

/-- The claim C2: the found and missing skills of `calculate_match`, viewed
as sets, are disjoint and partition the set of normalized non-blank tokens
of the comma-split required-skills string; when that token set is empty,
both are empty. -/
theorem c2_found_missing_partition (cv rs : String) :
    Disjoint (foundList cv rs).toFinset (missingFinset cv rs)
      ∧ (foundList cv rs).toFinset ∪ missingFinset cv rs
          = (((splitComma rs.data).filter fun t => pyStrip t ≠ []).map
              fun t => normalize_skill ⟨pyStrip t⟩).toFinset
      ∧ ((((splitComma rs.data).filter fun t => pyStrip t ≠ []).map
            fun t => normalize_skill ⟨pyStrip t⟩) = []
          → foundList cv rs = [] ∧ missingFinset cv rs = ∅) := by
  have hsub : (foundList cv rs).toFinset ⊆ (skillsList rs).toFinset := by
    intro s hs
    rw [List.mem_toFinset] at hs ⊢
    exact foundList_subset cv rs hs
  refine ⟨Finset.disjoint_sdiff, ?_, ?_⟩
  · rw [← skillsList_eq_filter_map]
    exact Finset.union_sdiff_of_subset hsub
  · intro h
    rw [← skillsList_eq_filter_map] at h
    have hf : foundList cv rs = [] := by
      unfold foundList
      rw [if_pos]
      simp [h]
    refine ⟨hf, ?_⟩
    unfold missingFinset
    rw [h]
    simp

/-- Witness for C2: at `cv = "a c"`, `rs = "a, b"` the found and missing
sets are disjoint and partition the parsed token set, and at the
whitespace-only `rs = " "` the token set is empty and both outputs are
empty. -/
theorem c2_found_missing_partition_witness :
    (Disjoint (foundList "a c" "a, b").toFinset (missingFinset "a c" "a, b")
        ∧ (foundList "a c" "a, b").toFinset ∪ missingFinset "a c" "a, b"
            = ((((splitComma ("a, b").data).filter fun t => pyStrip t ≠ []).map
                fun t => normalize_skill ⟨pyStrip t⟩).toFinset))
      ∧ ((((splitComma (" ").data).filter fun t => pyStrip t ≠ []).map
            fun t => normalize_skill ⟨pyStrip t⟩) = []
          ∧ foundList "x" " " = [] ∧ missingFinset "x" " " = ∅) :=
  ⟨⟨(c2_found_missing_partition "a c" "a, b").1,
    (c2_found_missing_partition "a c" "a, b").2.1⟩,
    by decide,
    (c2_found_missing_partition "x" " ").2.2 (by decide)⟩

/-- Counterexample to C7 as stated.  For `required_skills = "!!!"` every
comma token normalizes to the empty string — the hypothesis of C7 ("no
non-empty skill tokens after splitting and normalizing") holds — yet the
token survives the pre-normalization blank filter as the empty skill, whose
word-boundary pattern `\b\b` matches any candidate text containing a word
character, so `skills_match` is 100, not 0 (and the found/missing sets are
not both empty: found is the singleton of the empty token). -/
theorem c7_counterexample :
    splitComma ("!!!").data = [['!', '!', '!']]
      ∧ normalize_skill "!!!" = ""
      ∧ skillsList "!!!" = [""]
      ∧ foundList "python" "!!!" = [""]
      ∧ (calculate_match "python" "" "!!!").skills_match = 100
      ∧ (100 : ℝ) ≠ 0 := by
  refine ⟨by decide, by decide, by decide, by decide, ?_, by norm_num⟩
  show round2 ((skillsFrac "python" "!!!" : ℝ) * 100) = 100
  have h : skillsFrac "python" "!!!" = 1 := by
    have h1 : skillsList "!!!" = [""] := by decide
    have h2 : foundList "python" "!!!" = [""] := by decide
    unfold skillsFrac
    rw [h2, h1]
    norm_num
  rw [h]
  rw [show (((1 : ℚ) : ℝ) * 100) = 100 by norm_num]
  exact round2_hundred

/-- The claim C7 as amended: if the parsed skill list is empty — that is,
every comma-separated token of the required-skills string is blank (empty or
whitespace-only) — then `skills_match` is 0 and the found and missing skills
are empty. -/
theorem c7_empty_required_amended (cv jd rs : String) (h : skillsList rs = []) :
    (calculate_match cv jd rs).skills_match = 0
      ∧ foundList cv rs = []
      ∧ missingFinset cv rs = ∅
      ∧ (calculate_match cv jd rs).found_skills = ""
      ∧ (calculate_match cv jd rs).missing_skills = "" := by
  have hfrac : skillsFrac cv rs = 0 := by
    unfold skillsFrac
    rw [if_pos]
    simp [h]
  have hfound : foundList cv rs = [] := by
    unfold foundList
    rw [if_pos]
    simp [h]
  have hmiss : missingFinset cv rs = ∅ := by
    unfold missingFinset
    rw [h]
    simp
  have hmissl : missingList cv rs = [] := by
    unfold missingList
    rw [h]
    rfl
  refine ⟨?_, hfound, hmiss, ?_, ?_⟩
  · show round2 ((skillsFrac cv rs : ℝ) * 100) = 0
    rw [hfrac]
    rw [show (((0 : ℚ) : ℝ) * 100) = 0 by norm_num]
    exact round2_zero
  · show joinComma (foundList cv rs) = ""
    rw [hfound]
    rfl
  · show joinComma (missingList cv rs) = ""
    rw [hmissl]
    rfl

/-- Witness for the amended C7 at `required_skills = " , "` (both comma
tokens are blank, so the parsed skill list is empty). -/
theorem c7_empty_required_amended_witness :
    skillsList " , " = []
      ∧ ((calculate_match "python dev" "job" " , ").skills_match = 0
          ∧ foundList "python dev" " , " = []
          ∧ missingFinset "python dev" " , " = ∅
          ∧ (calculate_match "python dev" "job" " , ").found_skills = ""
          ∧ (calculate_match "python dev" "job" " , ").missing_skills = "") :=
  ⟨by decide, c7_empty_required_amended "python dev" "job" " , " (by decide)⟩

theorem hyphen_not_mem_cleanText (s : String) : '-' ∉ (cleanText s).data := by
  intro hmem
  unfold cleanText at hmem
  simp only [List.mem_map] at hmem
  obtain ⟨d, _, hd⟩ := hmem
  unfold cleanChar at hd
  split at hd
  · rename_i hcond
    rw [hd] at hcond
    exact absurd hcond (by decide)
  · exact absurd hd (by decide)

theorem wordSearch_mem {pat t : List Char} (h : wordSearch pat t = true) :
    ∀ c ∈ pat, c ∈ t := by
  unfold wordSearch at h
  rw [List.any_eq_true] at h
  obtain ⟨i, _, hi⟩ := h
  rw [Bool.and_eq_true, Bool.and_eq_true] at hi
  have heq : (t.drop i).take pat.length = pat := by
    have := hi.1.2
    exact eq_of_beq this
  intro c hc
  rw [← heq] at hc
  exact List.drop_subset i t (List.take_subset _ _ hc)

/-- The claim C10: a required skill whose normalized token contains a hyphen
is never found, for any candidate text — text cleaning replaces every hyphen
of the candidate text by a space, while normalization preserves the hyphen
in the token — so it is always reported among the missing skills. -/
theorem c10_hyphenated_skill_never_found (cv rs sk : String)
    (hmem : sk ∈ skillsList rs) (hhyp : '-' ∈ sk.data) :
    sk ∉ foundList cv rs ∧ sk ∈ missingFinset cv rs := by
  have hnot : sk ∉ foundList cv rs := by
    intro hin
    unfold foundList at hin
    split at hin
    · simp at hin
    · rw [List.mem_filter] at hin
      exact hyphen_not_mem_cleanText cv (wordSearch_mem hin.2 '-' hhyp)
  refine ⟨hnot, ?_⟩
  unfold missingFinset
  rw [Finset.mem_sdiff, List.mem_toFinset, List.mem_toFinset]
  exact ⟨hmem, hnot⟩

/-- Witness for C10: the required skill "scikit-learn" normalizes to itself
(hyphen preserved), and even a candidate text that literally contains
"scikit-learn" never has it found — it lands in the missing set. -/
theorem c10_hyphenated_skill_never_found_witness :
    "scikit-learn" ∈ skillsList "scikit-learn"
      ∧ '-' ∈ ("scikit-learn").data
      ∧ ("scikit-learn" ∉ foundList "uses scikit-learn daily" "scikit-learn"
          ∧ "scikit-learn" ∈ missingFinset "uses scikit-learn daily" "scikit-learn") :=
  ⟨by decide, by decide,
    c10_hyphenated_skill_never_found "uses scikit-learn daily" "scikit-learn" "scikit-learn"
      (by decide) (by decide)⟩

/-- Counterexample to C5 as stated.  With the duplicated requirement
`"python, python"` and a candidate text containing "python", the raw found
list keeps both copies and `found_skills` is rendered from the raw list
(`', '.join(found_skills)`), so the duplicate does NOT collapse there:
the joined output repeats the token.  (Only `missing_skills` goes through
`set(...)`.) -/
theorem c5_counterexample :
    skillsList "python, python" = ["python", "python"]
      ∧ foundList "python dev" "python, python" = ["python", "python"]
      ∧ (calculate_match "python dev" "" "python, python").found_skills = "python, python"
      ∧ ("python, python" : String) ≠ "python" := by
  refine ⟨by decide, by decide, ?_, by decide⟩
  show joinComma (foundList "python dev" "python, python") = "python, python"
  decide

/-- The claim C5 as amended: duplicate required-skill tokens collapse to a
single occurrence in `missing_skills`, which is built from a set and is
duplicate-free; `found_skills`, however, is joined from the raw found list,
which keeps one occurrence per duplicate of the token in the parsed
requirement list (full multiplicity), so duplicates do not collapse there. -/
theorem c5_duplicates_amended (cv jd rs s : String) :
    (missingList cv rs).Nodup
      ∧ (calculate_match cv jd rs).missing_skills = joinComma (missingList cv rs)
      ∧ (calculate_match cv jd rs).found_skills = joinComma (foundList cv rs)
      ∧ (s ∈ foundList cv rs →
          (foundList cv rs).count s = (skillsList rs).count s) := by
  refine ⟨List.nodup_dedup _, rfl, rfl, ?_⟩
  intro hin
  unfold foundList at hin ⊢
  split at hin
  · simp at hin
  · rename_i hcond
    rw [if_neg hcond]
    rw [List.mem_filter] at hin
    exact List.count_filter hin.2

/-- Witness for the amended C5 at the duplicated requirement
`"python, python"`: the found list carries the duplicate (count 2, equal to
its count in the parsed requirement list) while the missing list is
duplicate-free. -/
theorem c5_duplicates_amended_witness :
    "python" ∈ foundList "python dev" "python, python"
      ∧ ((missingList "python dev" "python, python").Nodup
          ∧ (calculate_match "python dev" "" "python, python").missing_skills
              = joinComma (missingList "python dev" "python, python")
          ∧ (calculate_match "python dev" "" "python, python").found_skills
              = joinComma (foundList "python dev" "python, python")
          ∧ (foundList "python dev" "python, python").count "python"
              = (skillsList "python, python").count "python")
      ∧ (foundList "python dev" "python, python").count "python" = 2 := by
  have h := c5_duplicates_amended "python dev" "" "python, python" "python"
  exact ⟨by decide, ⟨h.1, h.2.1, h.2.2.1, h.2.2.2 (by decide)⟩, by decide⟩

theorem mem_insertDesc {α β : Type} [LinearOrder β] (key : α → β) (x z : α) (l : List α) :
    z ∈ insertDesc key x l ↔ z = x ∨ z ∈ l := by
  induction l with
  | nil => simp [insertDesc]
  | cons y ys ih =>
    unfold insertDesc
    split
    · simp only [List.mem_cons, ih]
      tauto
    · simp only [List.mem_cons]

theorem insertDesc_perm {α β : Type} [LinearOrder β] (key : α → β) (x : α) (l : List α) :
    (insertDesc key x l).Perm (x :: l) := by
  induction l with
  | nil => exact List.Perm.refl _
  | cons y ys ih =>
    unfold insertDesc
    split
    · exact ((ih.cons y).trans (List.Perm.swap x y ys))
    · exact List.Perm.refl _

theorem pySortDesc_perm {α β : Type} [LinearOrder β] (key : α → β) (l : List α) :
    (pySortDesc key l).Perm l := by
  induction l with
  | nil => exact List.Perm.refl _
  | cons x xs ih =>
    exact (insertDesc_perm key x (pySortDesc key xs)).trans (ih.cons x)

theorem pairwise_insertDesc {α β : Type} [LinearOrder β] (key : α → β) (x : α) (l : List α)
    (h : l.Pairwise fun a b => key b ≤ key a) :
    (insertDesc key x l).Pairwise fun a b => key b ≤ key a := by
  induction l with
  | nil => simp [insertDesc]
  | cons y ys ih =>
    rw [List.pairwise_cons] at h
    unfold insertDesc
    split
    · rename_i hlt
      rw [List.pairwise_cons]
      constructor
      · intro z hz
        rcases (mem_insertDesc key x z ys).1 hz with hz | hz
        · rw [hz]
          exact le_of_lt hlt
        · exact h.1 z hz
      · exact ih h.2
    · rename_i hge
      push_neg at hge
      rw [List.pairwise_cons]
      refine ⟨?_, List.pairwise_cons.2 h⟩
      intro z hz
      rcases List.mem_cons.1 hz with hz | hz
      · rw [hz]
        exact hge
      · exact le_trans (h.1 z hz) hge

theorem pySortDesc_pairwise {α β : Type} [LinearOrder β] (key : α → β) (l : List α) :
    (pySortDesc key l).Pairwise fun a b => key b ≤ key a := by
  induction l with
  | nil => simp [pySortDesc]
  | cons x xs ih => exact pairwise_insertDesc key x _ ih

theorem insertDesc_filter {α β : Type} [LinearOrder β] (key : α → β) (x : α) (l : List α)
    (c : β) :
    (insertDesc key x l).filter (fun z => key z = c)
      = if key x = c then x :: l.filter (fun z => key z = c)
        else l.filter (fun z => key z = c) := by
  induction l with
  | nil => simp [insertDesc, List.filter_cons]
  | cons y ys ih =>
    unfold insertDesc
    split
    · rename_i hlt
      by_cases hyc : key y = c
      · have hxc : key x ≠ c := by
          intro hxc
          rw [hxc, ← hyc] at hlt
          exact lt_irrefl _ hlt
        simp [List.filter_cons, hyc, hxc, ih]
      · simp [List.filter_cons, hyc, ih]
    · by_cases hxc : key x = c <;> simp [List.filter_cons, hxc]

theorem pySortDesc_filter {α β : Type} [LinearOrder β] (key : α → β) (l : List α) (c : β) :
    (pySortDesc key l).filter (fun z => key z = c) = l.filter (fun z => key z = c) := by
  induction l with
  | nil => rfl
  | cons x xs ih =>
    show (insertDesc key x (pySortDesc key xs)).filter _ = _
    rw [insertDesc_filter]
    by_cases hxc : key x = c <;> simp [List.filter_cons, hxc, ih]

/-- The claim C4: the batch sort of `analyze_cvs` is a permutation of its
input in non-increasing key order; candidates with equal keys keep their
original relative order (the filter formulation of stability); the best
candidate is the head of the sorted sequence — a key-maximal element — and
is absent exactly when the batch is empty. -/
theorem c4_ranking_stable_desc {α β : Type} [LinearOrder β] (key : α → β) (l : List α) :
    (pySortDesc key l).Perm l
      ∧ (pySortDesc key l).Pairwise (fun a b => key b ≤ key a)
      ∧ (∀ c : β, (pySortDesc key l).filter (fun z => key z = c)
          = l.filter (fun z => key z = c))
      ∧ (l = [] → bestCandidate key l = none)
      ∧ (∀ x ∈ l, ∃ b, bestCandidate key l = some b ∧ key x ≤ key b) := by
  refine ⟨pySortDesc_perm key l, pySortDesc_pairwise key l, pySortDesc_filter key l, ?_, ?_⟩
  · intro h
    rw [h]
    rfl
  · intro x hx
    have hmem : x ∈ pySortDesc key l := (pySortDesc_perm key l).mem_iff.2 hx
    cases hs : pySortDesc key l with
    | nil => rw [hs] at hmem; simp at hmem
    | cons b rest =>
      refine ⟨b, by rw [bestCandidate, hs]; rfl, ?_⟩
      rw [hs] at hmem
      rcases List.mem_cons.1 hmem with hxb | hxr
      · rw [hxb]
      · have hp := pySortDesc_pairwise key l
        rw [hs, List.pairwise_cons] at hp
        exact hp.1 x hxr

/-- Witness for C4 at the spec's example: scores `[40, 90, 90, 10]` (tagged
with their input positions) rank as `[90, 90, 40, 10]` with the two 90s in
original relative order; the best candidate is the first 90; the empty batch
has no best candidate. -/
theorem c4_ranking_stable_desc_witness :
    pySortDesc (fun p => p.2) [((0 : Nat), (40 : Nat)), (1, 90), (2, 90), (3, 10)]
        = [(1, 90), (2, 90), (0, 40), (3, 10)]
      ∧ ((0, 40) ∈ [((0 : Nat), (40 : Nat)), (1, 90), (2, 90), (3, 10)]
          ∧ ∃ b, bestCandidate (fun p => p.2)
              [((0 : Nat), (40 : Nat)), (1, 90), (2, 90), (3, 10)] = some b
            ∧ ((0, 40) : Nat × Nat).2 ≤ b.2)
      ∧ bestCandidate (fun p : Nat × Nat => p.2) [] = none :=
  ⟨by decide,
    ⟨by decide,
      (c4_ranking_stable_desc (fun p => p.2)
        [((0 : Nat), (40 : Nat)), (1, 90), (2, 90), (3, 10)]).2.2.2.2 (0, 40) (by decide)⟩,
    (c4_ranking_stable_desc (fun p : Nat × Nat => p.2) []).2.2.2.1 rfl⟩

/-- Counterexample to C9 as stated.  A file named `cv.txt` whose bytes sniff
as `text/plain` does fail extraction with the unsupported-format error at
the `extract_text_from_file` level, but in the batch of `analyze_cvs` it
never reaches extraction: `allowed_file` rejects the extension first, the
file is skipped silently, and NO per-document error is reported (the flash
list stays empty), contradicting "this failure is reported per-document". -/
theorem c9_counterexample :
    extract_text_from_file
        ⟨"cv.txt", "text/plain", .error "bad pdf", .error "bad docx"⟩
        = .error (.unsupportedFormat "text/plain")
      ∧ allowed_file "cv.txt" = false
      ∧ processFiles "desc" "skills"
          [⟨"cv.txt", "text/plain", .error "bad pdf", .error "bad docx"⟩] = ([], []) := by
  refine ⟨rfl, by decide, ?_⟩
  have hA : allowed_file "cv.txt" = false := by decide
  simp [processFiles, hA]

/-- The claim C9 as amended: for a file whose sniffed content type is
neither the PDF nor the Office word-processing MIME type and whose filename
extension (which exists) lowercases to neither "pdf" nor "docx", extraction
fails with the unsupported-format error carrying the detected type — an
error distinct from every extraction-failure error — but in a batch such a
file is rejected by the extension allow-list before extraction and is
excluded silently (no per-document report), without aborting the processing
of the remaining documents. -/
theorem c9_unsupported_amended (f : FileInput) (e : String)
    (h1 : f.sniffedType ≠ "application/pdf")
    (h2 : f.sniffedType
        ≠ "application/vnd.openxmlformats-officedocument.wordprocessingml.document")
    (h3 : rsplitExt f.filename = some e)
    (h4 : (⟨e.data.map Char.toLower⟩ : String) ≠ "pdf")
    (h5 : (⟨e.data.map Char.toLower⟩ : String) ≠ "docx") :
    extract_text_from_file f = .error (.unsupportedFormat f.sniffedType)
      ∧ (∀ cause, ExtractError.unsupportedFormat f.sniffedType
          ≠ ExtractError.extractionFailed cause)
      ∧ allowed_file f.filename = false
      ∧ (∀ jd rs rest, processFiles jd rs (f :: rest) = processFiles jd rs rest) := by
  have hallow : allowed_file f.filename = false := by
    unfold allowed_file
    rw [h3]
    simp [h4, h5]
  refine ⟨?_, fun cause h => ExtractError.noConfusion h, hallow, ?_⟩
  · unfold extract_text_from_file
    rw [if_neg h1, if_neg h2, h3]
    simp only
    rw [if_neg h4, if_neg h5]
  · intro jd rs rest
    simp [processFiles, hallow]

/-- Witness for the amended C9 at the concrete file `cv.txt` sniffed as
`text/plain`: the extraction error is the unsupported-format one carrying
the sniffed type, the allow-list rejects the file, and a singleton batch
degenerates to the empty batch. -/
theorem c9_unsupported_amended_witness :
    ("text/plain" : String) ≠ "application/pdf"
      ∧ rsplitExt "cv.txt" = some "txt"
      ∧ extract_text_from_file
          ⟨"cv.txt", "text/plain", .error "bad pdf", .error "bad docx"⟩
          = .error (.unsupportedFormat "text/plain")
      ∧ allowed_file "cv.txt" = false
      ∧ processFiles "desc" "skills"
          [⟨"cv.txt", "text/plain", .error "bad pdf", .error "bad docx"⟩]
          = processFiles "desc" "skills" [] := by
  have h := c9_unsupported_amended
    ⟨"cv.txt", "text/plain", .error "bad pdf", .error "bad docx"⟩ "txt"
    (by decide) (by decide) (by decide) (by decide) (by decide)
  exact ⟨by decide, by decide, h.1, h.2.2.1, h.2.2.2 "desc" "skills" []⟩


theorem toNat_ofNat_of_lt {n : Nat} (h : n < 55296) : (Char.ofNat n).toNat = n := by
  have hv : n.isValidChar := Or.inl h
  rw [Char.ofNat, dif_pos hv]
  rfl

theorem toLower_toLower (c : Char) : Char.toLower (Char.toLower c) = Char.toLower c := by
  by_cases h : 65 ≤ c.toNat ∧ c.toNat ≤ 90
  · have h1 : Char.toLower c = Char.ofNat (c.toNat + 32) := by
      simp only [Char.toLower]
      rw [if_pos ⟨h.1, h.2⟩]
    have h32 : (Char.ofNat (c.toNat + 32)).toNat = c.toNat + 32 :=
      toNat_ofNat_of_lt (by omega)
    rw [h1]
    simp only [Char.toLower]
    rw [if_neg]
    rw [h32]
    omega
  · have h1 : Char.toLower c = c := by
      simp only [Char.toLower]
      rw [if_neg]
      exact fun hc => h ⟨hc.1, hc.2⟩
    rw [h1, h1]

theorem collapseWs_cons_of_neg {c : Char} {cs : List Char} (h : ¬ pyIsSpace c = true) :
    collapseWs (c :: cs) = c :: collapseWs cs := by
  cases cs <;> simp [collapseWs, h]

theorem collapseWs_cons2_of_pos_neg {c d : Char} {ds : List Char}
    (hc : pyIsSpace c = true) (hd : ¬ pyIsSpace d = true) :
    collapseWs (c :: d :: ds) = ' ' :: collapseWs (d :: ds) := by
  simp [collapseWs, hc, hd]

theorem collapseWs_cons2_of_pos_pos {c d : Char} {ds : List Char}
    (hc : pyIsSpace c = true) (hd : pyIsSpace d = true) :
    collapseWs (c :: d :: ds) = collapseWs (d :: ds) := by
  simp [collapseWs, hc, hd]

theorem mem_collapseWs {c : Char} : ∀ {l : List Char}, c ∈ collapseWs l → c ∈ l ∨ c = ' '
  | [], h => by simp [collapseWs] at h
  | a :: as, h => by
    by_cases ha : pyIsSpace a = true
    · match as with
      | [] =>
        simp [collapseWs, ha] at h
        exact Or.inr h
      | d :: ds =>
        by_cases hd : pyIsSpace d = true
        · rw [collapseWs_cons2_of_pos_pos ha hd] at h
          rcases mem_collapseWs h with h | h
          · exact Or.inl (List.mem_cons_of_mem a h)
          · exact Or.inr h
        · rw [collapseWs_cons2_of_pos_neg ha hd] at h
          rcases List.mem_cons.1 h with h | h
          · exact Or.inr h
          · rcases mem_collapseWs h with h | h
            · exact Or.inl (List.mem_cons_of_mem a h)
            · exact Or.inr h
    · rw [collapseWs_cons_of_neg ha] at h
      rcases List.mem_cons.1 h with h | h
      · exact Or.inl (h ▸ List.mem_cons_self a as)
      · rcases mem_collapseWs h with h | h
        · exact Or.inl (List.mem_cons_of_mem a h)
        · exact Or.inr h

theorem collapseWs_space {c : Char} :
    ∀ {l : List Char}, c ∈ collapseWs l → pyIsSpace c = true → c = ' '
  | [], h, _ => by simp [collapseWs] at h
  | a :: as, h, hsp => by
    by_cases ha : pyIsSpace a = true
    · match as with
      | [] =>
        simp [collapseWs, ha] at h
        exact h
      | d :: ds =>
        by_cases hd : pyIsSpace d = true
        · rw [collapseWs_cons2_of_pos_pos ha hd] at h
          exact collapseWs_space h hsp
        · rw [collapseWs_cons2_of_pos_neg ha hd] at h
          rcases List.mem_cons.1 h with h | h
          · exact h
          · exact collapseWs_space h hsp
    · rw [collapseWs_cons_of_neg ha] at h
      rcases List.mem_cons.1 h with h | h
      · exact absurd (h ▸ hsp) ha
      · exact collapseWs_space h hsp

theorem head_collapseWs_of_neg {d : Char} {ds : List Char} (hd : ¬ pyIsSpace d = true) :
    (collapseWs (d :: ds)).head? = some d := by
  rw [collapseWs_cons_of_neg hd]
  rfl

theorem collapseWs_chain' :
    ∀ l : List Char,
      (collapseWs l).Chain' fun a b => ¬(pyIsSpace a = true ∧ pyIsSpace b = true)
  | [] => by simp [collapseWs]
  | a :: as => by
    by_cases ha : pyIsSpace a = true
    · match as with
      | [] => simp [collapseWs, ha]
      | d :: ds =>
        by_cases hd : pyIsSpace d = true
        · rw [collapseWs_cons2_of_pos_pos ha hd]
          exact collapseWs_chain' (d :: ds)
        · rw [collapseWs_cons2_of_pos_neg ha hd]
          rw [List.chain'_cons']
          refine ⟨?_, collapseWs_chain' (d :: ds)⟩
          intro y hy
          rw [head_collapseWs_of_neg hd] at hy
          simp at hy
          rw [← hy]
          exact fun hcon => hd hcon.2
    · rw [collapseWs_cons_of_neg ha]
      rw [List.chain'_cons']
      refine ⟨?_, collapseWs_chain' as⟩
      intro y _
      exact fun hcon => ha hcon.1

theorem collapseWs_eq_self :
    ∀ {l : List Char}, (∀ c ∈ l, pyIsSpace c = true → c = ' ')
      → (l.Chain' fun a b => ¬(pyIsSpace a = true ∧ pyIsSpace b = true))
      → collapseWs l = l
  | [], _, _ => rfl
  | a :: as, h1, h2 => by
    by_cases ha : pyIsSpace a = true
    · have haeq : a = ' ' := h1 a (List.mem_cons_self a as) ha
      match as with
      | [] => simp [collapseWs, ha, haeq]
      | d :: ds =>
        have hd : ¬ pyIsSpace d = true := by
          rw [List.chain'_cons] at h2
          exact fun hds => h2.1 ⟨ha, hds⟩
        rw [collapseWs_cons2_of_pos_neg ha hd]
        rw [collapseWs_eq_self (fun c hc => h1 c (List.mem_cons_of_mem a hc))
          (List.chain'_cons.1 h2).2]
        rw [haeq]
    · rw [collapseWs_cons_of_neg ha]
      rw [collapseWs_eq_self (fun c hc => h1 c (List.mem_cons_of_mem a hc))
        ((List.chain'_cons'.1 h2).2)]

theorem pyStrip_subset (l : List Char) : pyStrip l ⊆ l := by
  intro c hc
  unfold pyStrip at hc
  rw [List.mem_reverse] at hc
  have hc2 := (List.dropWhile_suffix pyIsSpace).subset hc
  rw [List.mem_reverse] at hc2
  exact (List.dropWhile_suffix pyIsSpace).subset hc2

theorem chain'_rev_spaces {l : List Char}
    (h : l.Chain' fun a b => ¬(pyIsSpace a = true ∧ pyIsSpace b = true)) :
    l.reverse.Chain' fun a b => ¬(pyIsSpace a = true ∧ pyIsSpace b = true) := by
  rw [List.chain'_reverse]
  exact h.imp fun a b hab => fun hcon => hab ⟨hcon.2, hcon.1⟩

theorem pyStrip_chain' {l : List Char}
    (h : l.Chain' fun a b => ¬(pyIsSpace a = true ∧ pyIsSpace b = true)) :
    (pyStrip l).Chain' fun a b => ¬(pyIsSpace a = true ∧ pyIsSpace b = true) := by
  have h1 := List.Chain'.suffix h (List.dropWhile_suffix pyIsSpace)
  have h2 := chain'_rev_spaces h1
  have h3 := List.Chain'.suffix h2 (List.dropWhile_suffix pyIsSpace)
  exact chain'_rev_spaces h3

theorem dropWhile_head_not {p : Char → Bool} {l : List Char} {c : Char} {cs : List Char}
    (h : l.dropWhile p = c :: cs) : p c = false := by
  have hh := List.head?_dropWhile_not p l
  rw [h] at hh
  exact hh

theorem pyStrip_idem (l : List Char) : pyStrip (pyStrip l) = pyStrip l := by
  have hCrev : (pyStrip l).dropWhile pyIsSpace = pyStrip l := by
    cases hcc : pyStrip l with
    | nil => rfl
    | cons c cs =>
      have hpref : pyStrip l <+: l.dropWhile pyIsSpace := by
        have hsuf := List.dropWhile_suffix (l := (l.dropWhile pyIsSpace).reverse) pyIsSpace
        have h2 := List.reverse_prefix.2 hsuf
        rwa [List.reverse_reverse] at h2
      rw [hcc] at hpref
      obtain ⟨t, ht⟩ := hpref
      have hAeq : l.dropWhile pyIsSpace = c :: (cs ++ t) := by
        rw [← ht]
        rfl
      have hpc : pyIsSpace c = false := dropWhile_head_not hAeq
      exact List.dropWhile_cons_of_neg (by simp [hpc])
  show ((((pyStrip l).dropWhile pyIsSpace).reverse).dropWhile pyIsSpace).reverse = pyStrip l
  rw [hCrev]
  have hrev : (pyStrip l).reverse = (l.dropWhile pyIsSpace).reverse.dropWhile pyIsSpace := by
    unfold pyStrip
    rw [List.reverse_reverse]
  rw [hrev]
  have h2 : ((l.dropWhile pyIsSpace).reverse.dropWhile pyIsSpace).dropWhile pyIsSpace
      = (l.dropWhile pyIsSpace).reverse.dropWhile pyIsSpace := by
    cases hdd : (l.dropWhile pyIsSpace).reverse.dropWhile pyIsSpace with
    | nil => rfl
    | cons c cs =>
      have hpc : pyIsSpace c = false := dropWhile_head_not hdd
      exact List.dropWhile_cons_of_neg (by simp [hpc])
  rw [h2]
  rfl

theorem mem_norm_cases {s : String} {c : Char} (hc : c ∈ (normalize_skill s).data) :
    c ∈ (s.data.map Char.toLower).filter keepSkillChar ∨ c = ' ' := by
  have h1 := pyStrip_subset _ hc
  exact mem_collapseWs h1

theorem norm_chars_lower {s : String} {c : Char} (hc : c ∈ (normalize_skill s).data) :
    Char.toLower c = c := by
  rcases mem_norm_cases hc with h | h
  · obtain ⟨hm, _⟩ := List.mem_filter.1 h
    obtain ⟨d, _, hd⟩ := List.mem_map.1 hm
    rw [← hd]
    exact toLower_toLower d
  · rw [h]
    decide

theorem norm_chars_keep {s : String} {c : Char} (hc : c ∈ (normalize_skill s).data) :
    keepSkillChar c = true := by
  rcases mem_norm_cases hc with h | h
  · exact (List.mem_filter.1 h).2
  · rw [h]
    decide

theorem normalize_skill_idem (s : String) :
    normalize_skill (normalize_skill s) = normalize_skill s := by
  have hmap : (normalize_skill s).data.map Char.toLower = (normalize_skill s).data := by
    calc (normalize_skill s).data.map Char.toLower
        = (normalize_skill s).data.map id :=
          List.map_congr_left fun c hc => norm_chars_lower hc
      _ = (normalize_skill s).data := List.map_id _
  have hfil : ((normalize_skill s).data).filter keepSkillChar = (normalize_skill s).data :=
    List.filter_eq_self.2 fun c hc => norm_chars_keep hc
  have hsp : ∀ c ∈ (normalize_skill s).data, pyIsSpace c = true → c = ' ' := by
    intro c hc hs
    exact collapseWs_space (pyStrip_subset _ hc) hs
  have hch : (normalize_skill s).data.Chain'
      fun a b => ¬(pyIsSpace a = true ∧ pyIsSpace b = true) :=
    pyStrip_chain' (collapseWs_chain' _)
  have hcoll : collapseWs (normalize_skill s).data = (normalize_skill s).data :=
    collapseWs_eq_self hsp hch
  show (⟨pyStrip (collapseWs
      (((normalize_skill s).data.map Char.toLower).filter keepSkillChar))⟩ : String)
    = normalize_skill s
  rw [hmap, hfil, hcoll]
  show (⟨pyStrip (pyStrip
      (collapseWs ((s.data.map Char.toLower).filter keepSkillChar)))⟩ : String) = _
  rw [pyStrip_idem]
  rfl

/-- The claim C6: `normalize_skill` is idempotent, case-insensitive and
trimming (`normalize_skill "Python " = normalize_skill "python"`), total,
and maps the empty string to the empty string. -/
theorem c6_normalize_idempotent :
    (∀ s : String, normalize_skill (normalize_skill s) = normalize_skill s)
      ∧ normalize_skill "Python " = normalize_skill "python"
      ∧ normalize_skill "" = "" :=
  ⟨normalize_skill_idem, by decide, rfl⟩
